import Mathlib

/-!
Shallow embedding of the CNN-from-scratch notebook
(`ScratchImplementation.ipynb`): a Conv2D layer, a MaxPooling2D layer, a
Dense layer, softmax / cross-entropy helpers and the forward / train
drivers.  Rank-3 float tensors are modelled as a shape triple together
with a total data function over an ordered field `K`; layer objects carry
their learned parameters and the `last_input` caches the Python code
stores on `self`.  In-place mutation becomes explicit state passing:
every method returns its result together with the updated layer value.
Errors that numpy raises (negative dimensions in `np.zeros`, broadcast
failures, misaligned `np.dot` shapes) are modelled with `Except`.
-/

set_option maxHeartbeats 1600000

namespace CNN

/-- Rank-3 tensor: a (height, width, channels) shape together with a total
data function; entries outside the shape are irrelevant junk. -/
structure Tensor3 (K : Type) where
  h : ℕ
  w : ℕ
  c : ℕ
  data : ℕ → ℕ → ℕ → K

/-- Elementwise map over a tensor, as numpy broadcasting of a scalar
operation (used for the image normalisation `(image / 255) - 0.5`). -/
def Tensor3.map {K : Type} (f : K → K) (t : Tensor3 K) : Tensor3 K :=
  ⟨t.h, t.w, t.c, fun i j ch => f (t.data i j ch)⟩

/-- Row-major (C-order) flattening of a rank-3 tensor, as
`numpy.ndarray.flatten`: flat index `(i * w + j) * c + ch`. -/
def Tensor3.flatten {K : Type} (t : Tensor3 K) : ℕ → K :=
  fun k => t.data (k / (t.w * t.c)) ((k / t.c) % t.w) (k % t.c)

/-- Conv2D layer state (notebook cell 3): the learned filter bank
`filters` of shape (numFilters, filterSize, filterSize, channels) and the
`last_input` cache written by `forward`. -/
structure Conv2D (K : Type) where
  numFilters : ℕ
  filterSize : ℕ
  channels : ℕ
  filters : ℕ → ℕ → ℕ → ℕ → K
  lastInput : Tensor3 K

/-- Numpy broadcast compatibility of two trailing dimensions: equal, or
one of them is 1. -/
def broadcastOK (a b : ℕ) : Bool :=
  a == b || a == 1 || b == 1

/-- Value written to `output[i, j, f]` by Conv2D.forward:
`np.sum(region * self.filters[f], axis=(1,2,3))`, including numpy's
broadcasting of a size-1 channel axis against the filter channels. -/
def convRegionSum {K : Type} [LinearOrderedField K] (l : Conv2D K)
    (img : Tensor3 K) (i j f : ℕ) : K :=
  ∑ a ∈ Finset.range l.filterSize, ∑ b ∈ Finset.range l.filterSize,
    ∑ ch ∈ Finset.range (max img.c l.channels),
      img.data (i + a) (j + b) (if img.c = 1 then 0 else ch) *
        l.filters f a b (if l.channels = 1 then 0 else ch)

/-- Embedding of `Conv2D.forward`.  The Python code first stores
`self.last_input = input`, then allocates
`np.zeros((h - F + 1, w - F + 1, num_filters))` — which raises a
ValueError when a dimension is negative — and then fills each valid
output position with the windowed sum; the first loop iteration raises a
broadcast ValueError when the image channel count is incompatible with
the filter channel count (so no error is raised when the output region is
empty). -/
def Conv2D.forward {K : Type} [LinearOrderedField K] (l : Conv2D K)
    (input : Tensor3 K) : Except String (Tensor3 K) × Conv2D K :=
  let l' : Conv2D K := { l with lastInput := input }
  if (input.h : ℤ) - (l.filterSize : ℤ) + 1 < 0 ∨
      (input.w : ℤ) - (l.filterSize : ℤ) + 1 < 0 then
    (Except.error "negative dimensions are not allowed", l')
  else
    let newh := input.h + 1 - l.filterSize
    let neww := input.w + 1 - l.filterSize
    if 0 < newh ∧ 0 < neww ∧ broadcastOK input.c l.channels = false then
      (Except.error "operands could not be broadcast together", l')
    else
      (Except.ok ⟨newh, neww, l.numFilters, fun i j f =>
        if i < newh ∧ j < neww ∧ f < l.numFilters then
          convRegionSum l input i j f
        else 0⟩, l')

/-- Embedding of `Conv2D.backward`: accumulates
`d_L_d_filters[f] += d_out[i, j, f] * region` over the same window
enumeration as forward (run on the cached `last_input`), applies
`filters -= learn_rate * d_L_d_filters` and returns `None` as the input
gradient. -/
def Conv2D.backward {K : Type} [LinearOrderedField K] (l : Conv2D K)
    (dOut : Tensor3 K) (lr : K) : Option (Tensor3 K) × Conv2D K :=
  let t := l.lastInput
  let newh := t.h + 1 - l.filterSize
  let neww := t.w + 1 - l.filterSize
  (none,
   { l with
      filters := fun f a b ch =>
        l.filters f a b ch -
          lr * ∑ i ∈ Finset.range newh, ∑ j ∈ Finset.range neww,
            dOut.data i j f * t.data (i + a) (j + b) ch })

/-- MaxPooling2D layer state (notebook cell 5): the pool window size and
the `last_input` cache written by `forward`. -/
structure MaxPooling2D (K : Type) where
  poolSize : ℕ
  lastInput : Tensor3 K

/-- Maximum of the pool-size window of channel `f` whose top-left corner
is `(i * P, j * P)` — the value `np.amax(region, axis=(0,1))[f]`. -/
def regionMax {K : Type} [LinearOrderedField K] (t : Tensor3 K)
    (P i j f : ℕ) : K :=
  if h : 0 < P then
    ((Finset.range P) ×ˢ (Finset.range P)).sup'
      (Finset.Nonempty.product ⟨0, Finset.mem_range.mpr h⟩
        ⟨0, Finset.mem_range.mpr h⟩)
      (fun p => t.data (i * P + p.1) (j * P + p.2) f)
  else t.data (i * P) (j * P) f

/-- Embedding of `MaxPooling2D.forward`: stores `last_input`, allocates
`np.zeros((h // P, w // P, num_filters))` and writes the per-channel
window maximum at each valid position. -/
def MaxPooling2D.forward {K : Type} [LinearOrderedField K]
    (l : MaxPooling2D K) (input : Tensor3 K) :
    Tensor3 K × MaxPooling2D K :=
  (⟨input.h / l.poolSize, input.w / l.poolSize, input.c, fun i j f =>
      if i < input.h / l.poolSize ∧ j < input.w / l.poolSize ∧
          f < input.c then
        regionMax input l.poolSize i j f
      else 0⟩,
   { l with lastInput := input })

/-- Embedding of `MaxPooling2D.backward`.  The Python code zero-fills a
tensor of `last_input`'s shape and, for every window `(i, j)` and every
in-window position `(i2, j2)` and channel `f2` whose value equals the
window maximum, assigns (not adds)
`d_out[i, j, f2]` at `(i * P + i2, j * P + j2, f2)`.  Windows are
disjoint, so the loop is equivalent to this closed form with
`i = x / P`, `i2 = x % P` (positions `x ≥ (h / P) * P` lie in no window
and keep their zero). -/
def MaxPooling2D.backward {K : Type} [LinearOrderedField K]
    (l : MaxPooling2D K) (dOut : Tensor3 K) : Tensor3 K :=
  let t := l.lastInput
  let P := l.poolSize
  ⟨t.h, t.w, t.c, fun x y f =>
    if x < t.h / P * P ∧ y < t.w / P * P ∧ f < t.c ∧
        t.data x y f = regionMax t P (x / P) (y / P) f then
      dOut.data (x / P) (y / P) f
    else 0⟩

/-- Dense layer state (notebook cell 7): the learned weight matrix
(inputLen × nodes) and bias vector, plus the `last_input_shape`,
`last_input` and `last_totals` caches written by `forward`. -/
structure Dense (K : Type) where
  inputLen : ℕ
  nodes : ℕ
  weights : ℕ → ℕ → K
  biases : ℕ → K
  lastInputShape : ℕ × ℕ × ℕ
  lastInput : ℕ → K
  lastTotals : ℕ → K

/-- Embedding of `Dense.forward`: records the input shape, flattens the
input, records it, and computes `totals = input @ weights + biases`.
`np.dot` raises a ValueError when the flattened length differs from the
weight matrix's first dimension (the caches written before that line are
still updated in that case). -/
def Dense.forward {K : Type} [LinearOrderedField K] (l : Dense K)
    (input : Tensor3 K) : Except String (ℕ → K) × Dense K :=
  let flat := input.flatten
  let l' : Dense K := { l with
    lastInputShape := (input.h, input.w, input.c)
    lastInput := flat }
  if input.h * input.w * input.c = l.inputLen then
    let totals : ℕ → K := fun n =>
      (∑ k ∈ Finset.range l.inputLen, flat k * l.weights k n) + l.biases n
    (Except.ok totals, { l' with lastTotals := totals })
  else
    (Except.error "shapes not aligned", l')

/-- Embedding of `Dense.backward`: weight gradient is the outer product
of the cached flattened input with `d_L_d_out`, bias gradient is
`d_L_d_out`, the input gradient is `weights @ d_L_d_out` (using the
pre-update weights) reshaped to `last_input_shape`, and the parameters
are updated in place by `-= learn_rate * gradient`. -/
def Dense.backward {K : Type} [LinearOrderedField K] (l : Dense K)
    (dOut : ℕ → K) (lr : K) : Tensor3 K × Dense K :=
  let dInputs : ℕ → K := fun k =>
    ∑ n ∈ Finset.range l.nodes, l.weights k n * dOut n
  (⟨l.lastInputShape.1, l.lastInputShape.2.1, l.lastInputShape.2.2,
    fun x y z =>
      dInputs ((x * l.lastInputShape.2.1 + y) * l.lastInputShape.2.2 + z)⟩,
   { l with
      weights := fun k n => l.weights k n - lr * (l.lastInput k * dOut n)
      biases := fun n => l.biases n - lr * dOut n })

/-- Maximum entry of the length-`n` vector `x`, as `np.max(x)` (only
meaningful for `0 < n`, matching numpy which rejects empty input). -/
def maxOver {K : Type} [LinearOrderedField K] (n : ℕ) (x : ℕ → K) : K :=
  if h : 0 < n then
    (Finset.range n).sup' (Finset.nonempty_range_iff.mpr h.ne') x
  else x 0

/-- Embedding of `softmax`: `exp(x - np.max(x)) / exp(x - np.max(x)).sum()`
on a length-`n` vector.  The exponential is passed as a parameter so the
definition stays computable; claims instantiate it with `Real.exp`. -/
def softmax {K : Type} [LinearOrderedField K] (exp : K → K) (n : ℕ)
    (x : ℕ → K) : ℕ → K :=
  fun i => exp (x i - maxOver n x) /
    ∑ j ∈ Finset.range n, exp (x j - maxOver n x)

/-- Embedding of `cross_entropy_loss(output, y) = -np.log(output[y])`.
The logarithm is passed as a parameter; claims instantiate it with
`Real.log`. -/
def cross_entropy_loss {K : Type} [LinearOrderedField K] (log : K → K)
    (out : ℕ → K) (y : ℕ) : K :=
  - log (out y)

/-- First index attaining the maximum of the length-`n` vector `x`, as
`np.argmax` (a later equal value never replaces an earlier one). -/
def argmaxFirst {K : Type} [LinearOrderedField K] (n : ℕ) (x : ℕ → K) : ℕ :=
  (List.range n).foldl (fun best i => if x best < x i then i else best) 0

/-- The whole network: the three global layer objects of the notebook. -/
structure Network (K : Type) where
  conv : Conv2D K
  pool : MaxPooling2D K
  dense : Dense K

/-- Embedding of the driver `forward(image, label)` (notebook cell 11):
normalises the image by `(image / 255) - 0.5`, chains
Conv2D.forward → MaxPooling2D.forward → Dense.forward → softmax, and
computes the cross-entropy loss and the 0/1 accuracy.  A layer error
aborts the chain there (later layers keep their previous state), and the
layer-state mutations performed before the raise are kept. -/
def netForward {K : Type} [LinearOrderedField K] (exp log : K → K)
    (net : Network K) (image : Tensor3 K) (label : ℕ) :
    Except String ((ℕ → K) × K × ℕ) × Network K :=
  let norm := image.map (fun v => v / 255 - 1 / 2)
  let c := net.conv.forward norm
  match c.1 with
  | Except.error e => (Except.error e, { net with conv := c.2 })
  | Except.ok out1 =>
    let p := net.pool.forward out1
    let d := net.dense.forward p.1
    match d.1 with
    | Except.error e =>
        (Except.error e, { conv := c.2, pool := p.2, dense := d.2 })
    | Except.ok totals =>
        let out := softmax exp net.dense.nodes totals
        let loss := cross_entropy_loss log out label
        let acc := if argmaxFirst net.dense.nodes out = label then 1 else 0
        (Except.ok (out, loss, acc), { conv := c.2, pool := p.2, dense := d.2 })

/-- Probability vector produced by the driver forward pass (the `out`
component of a successful `netForward`). -/
def netProbs {K : Type} [LinearOrderedField K] (exp log : K → K)
    (net : Network K) (image : Tensor3 K) (label : ℕ) : ℕ → K :=
  match (netForward exp log net image label).1 with
  | Except.ok r => r.1
  | Except.error _ => fun _ => 0

/-- Embedding of `train(im, label, lr)` (notebook cell 11): runs the
forward pass, builds the initial gradient `np.zeros(2)` with
`-1 / out[label]` at the true label's index, then backpropagates through
Dense, MaxPooling, Conv2D in that order (each updating its own
parameters), and returns `(loss, acc)`. -/
def train {K : Type} [LinearOrderedField K] (exp log : K → K)
    (net : Network K) (image : Tensor3 K) (label : ℕ) (lr : K) :
    Except String (K × ℕ) × Network K :=
  let r := netForward exp log net image label
  match r.1 with
  | Except.error e => (Except.error e, r.2)
  | Except.ok res =>
    let out := res.1
    let g : ℕ → K := fun n => if n = label then -1 / out label else 0
    let db := r.2.dense.backward g lr
    let g2 := r.2.pool.backward db.1
    let cb := r.2.conv.backward g2 lr
    (Except.ok (res.2.1, res.2.2),
     { conv := cb.2, pool := r.2.pool, dense := db.2 })

/-- Total projection of a successful tensor result (used to state the
claims without existential quantifiers). -/
def okTensor {K : Type} [LinearOrderedField K]
    (e : Except String (Tensor3 K)) : Tensor3 K :=
  match e with
  | Except.ok t => t
  | Except.error _ => ⟨0, 0, 0, fun _ _ _ => 0⟩

/-- Helper: `Conv2D.forward` on compatible shapes succeeds and returns
exactly the windowed-sum tensor together with the layer whose only change
is the `last_input` cache. -/
theorem conv_forward_eq {K : Type} [LinearOrderedField K] (l : Conv2D K)
    (input : Tensor3 K)
    (h1 : l.filterSize ≤ input.h + 1) (h2 : l.filterSize ≤ input.w + 1)
    (h3 : broadcastOK input.c l.channels = true) :
    l.forward input =
      (Except.ok ⟨input.h + 1 - l.filterSize, input.w + 1 - l.filterSize,
          l.numFilters, fun i j f =>
          if i < input.h + 1 - l.filterSize ∧
              j < input.w + 1 - l.filterSize ∧ f < l.numFilters then
            convRegionSum l input i j f
          else 0⟩,
       { l with lastInput := input }) := by
  have hneg : ¬((input.h : ℤ) - (l.filterSize : ℤ) + 1 < 0 ∨
      (input.w : ℤ) - (l.filterSize : ℤ) + 1 < 0) := by
    push_neg
    constructor <;> omega
  have hbc : ¬(0 < input.h + 1 - l.filterSize ∧
      0 < input.w + 1 - l.filterSize ∧
      broadcastOK input.c l.channels = false) := by
    simp [h3]
  simp only [Conv2D.forward]
  rw [if_neg hneg, if_neg hbc]

/-- Helper: regardless of errors, `Conv2D.forward` leaves the layer state
unchanged except for the `last_input` cache. -/
theorem conv_forward_snd {K : Type} [LinearOrderedField K] (l : Conv2D K)
    (input : Tensor3 K) :
    (l.forward input).2 = { l with lastInput := input } := by
  simp only [Conv2D.forward]
  split
  · rfl
  · split
    · rfl
    · rfl

/-- C1: for every image of shape (H, W, C) with filter size F ≤ min(H, W)
and channel count matching the filter bank, `Conv2D.forward` succeeds
with a tensor of shape (H−F+1, W−F+1, N), and every output entry
(i, j, f) is the valid stride-1 cross-correlation: the sum over the
F×F×C window of the image starting at (i, j) of elementwise products
with filter f's weights. -/
theorem conv_forward_spec (l : Conv2D ℚ) (input : Tensor3 ℚ)
    (hh : l.filterSize ≤ input.h) (hw : l.filterSize ≤ input.w)
    (hc : input.c = l.channels) :
    (l.forward input).1 = Except.ok (okTensor (l.forward input).1) ∧
    (okTensor (l.forward input).1).h = input.h - l.filterSize + 1 ∧
    (okTensor (l.forward input).1).w = input.w - l.filterSize + 1 ∧
    (okTensor (l.forward input).1).c = l.numFilters ∧
    ∀ i j f, i < input.h - l.filterSize + 1 →
      j < input.w - l.filterSize + 1 → f < l.numFilters →
      (okTensor (l.forward input).1).data i j f =
        ∑ a ∈ Finset.range l.filterSize, ∑ b ∈ Finset.range l.filterSize,
          ∑ ch ∈ Finset.range input.c,
            input.data (i + a) (j + b) ch * l.filters f a b ch := by
  have hbc : broadcastOK input.c l.channels = true := by
    simp [broadcastOK, hc]
  rw [conv_forward_eq l input (by omega) (by omega) hbc]
  refine ⟨rfl, by show input.h + 1 - l.filterSize = _; omega,
    by show input.w + 1 - l.filterSize = _; omega, rfl, ?_⟩
  intro i j f hi hj hf
  show (if i < input.h + 1 - l.filterSize ∧
      j < input.w + 1 - l.filterSize ∧ f < l.numFilters then
    convRegionSum l input i j f else 0) = _
  rw [if_pos ⟨by omega, by omega, hf⟩]
  unfold convRegionSum
  rw [hc, max_self]
  refine Finset.sum_congr rfl fun a _ => Finset.sum_congr rfl fun b _ =>
    Finset.sum_congr rfl fun ch hch => ?_
  rcases eq_or_ne l.channels 1 with h1 | h1
  · have hch0 : ch = 0 := by
      have := Finset.mem_range.mp hch
      omega
    simp [h1, hch0]
  · simp [h1]

def c1Layer : Conv2D ℚ :=
  ⟨1, 2, 1, fun _ _ _ _ => 1, ⟨0, 0, 0, fun _ _ _ => 0⟩⟩

def c1Img : Tensor3 ℚ := ⟨4, 4, 1, fun _ _ _ => 1⟩

/-- Witness for C1: a 4×4×1 all-ones image with a single all-ones
2×2 filter yields a 3×3×1 output whose entries equal 4. -/
theorem conv_forward_spec_witness :
    (c1Layer.forward c1Img).1 = Except.ok (okTensor (c1Layer.forward c1Img).1) ∧
    (okTensor (c1Layer.forward c1Img).1).h = 3 ∧
    (okTensor (c1Layer.forward c1Img).1).data 0 0 0 = 4 := by
  obtain ⟨e1, e2, e3, e4, e5⟩ :=
    conv_forward_spec c1Layer c1Img (by decide) (by decide) (by decide)
  refine ⟨e1, by rw [e2]; decide, ?_⟩
  rw [e5 0 0 0 (by decide) (by decide) (by decide)]
  norm_num [c1Img, c1Layer]

/-- C2: after a forward pass on `input`, for every output gradient of the
forward output's shape and every learning rate, `Conv2D.backward`
computes for each filter the sum over all window positions (i, j) of
`d_out[i, j, f]` times the input patch at (i, j), updates
`filters ← filters − learn_rate · gradient`, and returns no input
gradient (`None`). -/
theorem conv_backward_spec (l : Conv2D ℚ) (input dOut : Tensor3 ℚ) (lr : ℚ)
    (hh : l.filterSize ≤ input.h) (hw : l.filterSize ≤ input.w)
    (hc : input.c = l.channels)
    (hdh : dOut.h = input.h - l.filterSize + 1)
    (hdw : dOut.w = input.w - l.filterSize + 1)
    (hdc : dOut.c = l.numFilters) :
    ((l.forward input).2.backward dOut lr).1 = none ∧
    ∀ f a b ch, f < l.numFilters → a < l.filterSize → b < l.filterSize →
      ch < l.channels →
      ((l.forward input).2.backward dOut lr).2.filters f a b ch =
        l.filters f a b ch -
          lr * ∑ i ∈ Finset.range (input.h - l.filterSize + 1),
            ∑ j ∈ Finset.range (input.w - l.filterSize + 1),
              dOut.data i j f * input.data (i + a) (j + b) ch := by
  rw [conv_forward_snd]
  refine ⟨rfl, ?_⟩
  intro f a b ch hf ha hb hch
  show l.filters f a b ch -
      lr * ∑ i ∈ Finset.range (input.h + 1 - l.filterSize),
        ∑ j ∈ Finset.range (input.w + 1 - l.filterSize),
          dOut.data i j f * input.data (i + a) (j + b) ch = _
  rw [show input.h + 1 - l.filterSize = input.h - l.filterSize + 1 from by omega,
    show input.w + 1 - l.filterSize = input.w - l.filterSize + 1 from by omega]

def c2Layer : Conv2D ℚ :=
  ⟨1, 2, 1, fun _ _ _ _ => 1, ⟨0, 0, 0, fun _ _ _ => 0⟩⟩

def c2Img : Tensor3 ℚ := ⟨2, 2, 1, fun i j _ => (i : ℚ) * 2 + j + 1⟩

def c2DOut : Tensor3 ℚ := ⟨1, 1, 1, fun _ _ _ => 3⟩

/-- Witness for C2: on a 2×2×1 input with entries 1..4, a single 2×2
all-ones filter and output gradient 3, backward returns no input
gradient and updates the filter entry (0,0,0,0) to 1 − 1·(3·1) = −2. -/
theorem conv_backward_spec_witness :
    ((c2Layer.forward c2Img).2.backward c2DOut 1).1 = none ∧
    ((c2Layer.forward c2Img).2.backward c2DOut 1).2.filters 0 0 0 0 = -2 := by
  obtain ⟨e1, e2⟩ := conv_backward_spec c2Layer c2Img c2DOut 1 (by decide)
    (by decide) (by decide) (by decide) (by decide) (by decide)
  refine ⟨e1, ?_⟩
  rw [e2 0 0 0 0 (by decide) (by decide) (by decide) (by decide)]
  norm_num [c2Img, c2Layer, c2DOut]

/-- Helper: every element of a pool window is at most the window
maximum. -/
theorem le_regionMax {K : Type} [LinearOrderedField K] (t : Tensor3 K)
    (P i j f a b : ℕ) (hP : 0 < P) (ha : a < P) (hb : b < P) :
    t.data (i * P + a) (j * P + b) f ≤ regionMax t P i j f := by
  unfold regionMax
  rw [dif_pos hP]
  exact @Finset.le_sup' _ _ _ _
    (fun p : ℕ × ℕ => t.data (i * P + p.1) (j * P + p.2) f) (a, b)
    (Finset.mem_product.mpr
      ⟨Finset.mem_range.mpr ha, Finset.mem_range.mpr hb⟩)

/-- Helper: the window maximum is attained by some window element. -/
theorem regionMax_attained {K : Type} [LinearOrderedField K]
    (t : Tensor3 K) (P i j f : ℕ) (hP : 0 < P) :
    ∃ a b, a < P ∧ b < P ∧
      regionMax t P i j f = t.data (i * P + a) (j * P + b) f := by
  unfold regionMax
  rw [dif_pos hP]
  obtain ⟨p, hp, he⟩ := Finset.exists_mem_eq_sup'
    (Finset.Nonempty.product ⟨0, Finset.mem_range.mpr hP⟩
      ⟨0, Finset.mem_range.mpr hP⟩)
    (fun p : ℕ × ℕ => t.data (i * P + p.1) (j * P + p.2) f)
  obtain ⟨hp1, hp2⟩ := Finset.mem_product.mp hp
  exact ⟨p.1, p.2, Finset.mem_range.mp hp1, Finset.mem_range.mp hp2, he⟩

/-- Helper: the window maximum is at most any upper bound of the
window. -/
theorem regionMax_le {K : Type} [LinearOrderedField K] (t : Tensor3 K)
    (P i j f : ℕ) (hP : 0 < P) (m : K)
    (hm : ∀ a b, a < P → b < P → t.data (i * P + a) (j * P + b) f ≤ m) :
    regionMax t P i j f ≤ m := by
  unfold regionMax
  rw [dif_pos hP]
  refine Finset.sup'_le _ _ fun p hp => ?_
  obtain ⟨hp1, hp2⟩ := Finset.mem_product.mp hp
  exact hm p.1 p.2 (Finset.mem_range.mp hp1) (Finset.mem_range.mp hp2)

/-- C3: for every input of shape (H, W, N) and pool size P > 0,
`MaxPooling2D.forward` returns a tensor of shape (H÷P, W÷P, N) with
integer floor division (remainder rows and columns are dropped), and
each output entry is the maximum over its P×P window, independently per
channel: it dominates every window element and is attained by one. -/
theorem pool_forward_spec (l : MaxPooling2D ℚ) (input : Tensor3 ℚ)
    (hP : 0 < l.poolSize) :
    (l.forward input).1.h = input.h / l.poolSize ∧
    (l.forward input).1.w = input.w / l.poolSize ∧
    (l.forward input).1.c = input.c ∧
    ∀ i j f, i < input.h / l.poolSize → j < input.w / l.poolSize →
      f < input.c →
      ((∀ a b, a < l.poolSize → b < l.poolSize →
          input.data (i * l.poolSize + a) (j * l.poolSize + b) f ≤
            (l.forward input).1.data i j f) ∧
       (∃ a b, a < l.poolSize ∧ b < l.poolSize ∧
          (l.forward input).1.data i j f =
            input.data (i * l.poolSize + a) (j * l.poolSize + b) f)) := by
  refine ⟨rfl, rfl, rfl, ?_⟩
  intro i j f hi hj hf
  have hd : (l.forward input).1.data i j f =
      regionMax input l.poolSize i j f := by
    show (if i < input.h / l.poolSize ∧ j < input.w / l.poolSize ∧
        f < input.c then regionMax input l.poolSize i j f else 0) = _
    rw [if_pos ⟨hi, hj, hf⟩]
  rw [hd]
  exact ⟨fun a b ha hb => le_regionMax input l.poolSize i j f a b hP ha hb,
    regionMax_attained input l.poolSize i j f hP⟩

def c3Input : Tensor3 ℚ := ⟨5, 5, 1, fun i j _ => (i : ℚ) * 5 + j⟩

def c3Pool : MaxPooling2D ℚ := ⟨2, ⟨0, 0, 0, fun _ _ _ => 0⟩⟩

/-- Witness for C3: a 5×5×1 input with pool size 2 yields a 2×2×1 output
(the last row and column are dropped), and the (1,1) output dominates the
bottom-right retained window element. -/
theorem pool_forward_spec_witness :
    (c3Pool.forward c3Input).1.h = 2 ∧
    (c3Pool.forward c3Input).1.w = 2 ∧
    (c3Pool.forward c3Input).1.c = 1 ∧
    c3Input.data 3 3 0 ≤ (c3Pool.forward c3Input).1.data 1 1 0 := by
  obtain ⟨e1, e2, e3, e4⟩ := pool_forward_spec c3Pool c3Input (by decide)
  refine ⟨by rw [e1]; decide, by rw [e2]; decide, by rw [e3]; decide, ?_⟩
  exact (e4 1 1 0 (by decide) (by decide) (by decide)).1 1 1
    (by decide) (by decide)

/-- C4: after a forward pass on `input`, `MaxPooling2D.backward` returns
a tensor of the retained input's shape that is zero everywhere except at
positions attaining the maximum of their P×P window (per channel): every
attaining position — all of them, when tied — is assigned the very
`d_out` entry of its window (not a summed value), and every other
position (including the dropped remainder rows/columns, which belong to
no window) is zero. -/
theorem pool_backward_spec (l : MaxPooling2D ℚ) (input dOut : Tensor3 ℚ)
    (hP : 0 < l.poolSize)
    (hdh : dOut.h = input.h / l.poolSize)
    (hdw : dOut.w = input.w / l.poolSize)
    (hdc : dOut.c = input.c) :
    ((l.forward input).2.backward dOut).h = input.h ∧
    ((l.forward input).2.backward dOut).w = input.w ∧
    ((l.forward input).2.backward dOut).c = input.c ∧
    ∀ x y f, x < input.h → y < input.w → f < input.c →
      ((x < input.h / l.poolSize * l.poolSize →
        y < input.w / l.poolSize * l.poolSize →
        (∀ a b, a < l.poolSize → b < l.poolSize →
          input.data (x / l.poolSize * l.poolSize + a)
            (y / l.poolSize * l.poolSize + b) f ≤ input.data x y f) →
        ((l.forward input).2.backward dOut).data x y f =
          dOut.data (x / l.poolSize) (y / l.poolSize) f) ∧
       (¬(x < input.h / l.poolSize * l.poolSize ∧
          y < input.w / l.poolSize * l.poolSize ∧
          (∀ a b, a < l.poolSize → b < l.poolSize →
            input.data (x / l.poolSize * l.poolSize + a)
              (y / l.poolSize * l.poolSize + b) f ≤ input.data x y f)) →
        ((l.forward input).2.backward dOut).data x y f = 0)) := by
  have hdata : ∀ x y f, ((l.forward input).2.backward dOut).data x y f =
      if x < input.h / l.poolSize * l.poolSize ∧
          y < input.w / l.poolSize * l.poolSize ∧ f < input.c ∧
          input.data x y f = regionMax input l.poolSize (x / l.poolSize)
            (y / l.poolSize) f then
        dOut.data (x / l.poolSize) (y / l.poolSize) f
      else 0 := fun _ _ _ => rfl
  refine ⟨rfl, rfl, rfl, ?_⟩
  intro x y f hx hy hf
  constructor
  · intro h1 h2 hdom
    have heq : input.data x y f =
        regionMax input l.poolSize (x / l.poolSize) (y / l.poolSize) f := by
      refine le_antisymm ?_
        (regionMax_le input l.poolSize (x / l.poolSize) (y / l.poolSize)
          f hP (input.data x y f) hdom)
      have hmx : x / l.poolSize * l.poolSize + x % l.poolSize = x :=
        Nat.div_add_mod' x l.poolSize
      have hmy : y / l.poolSize * l.poolSize + y % l.poolSize = y :=
        Nat.div_add_mod' y l.poolSize
      have hle := le_regionMax input l.poolSize (x / l.poolSize)
        (y / l.poolSize) f (x % l.poolSize) (y % l.poolSize) hP
        (Nat.mod_lt x hP) (Nat.mod_lt y hP)
      rwa [hmx, hmy] at hle
    rw [hdata, if_pos ⟨h1, h2, hf, heq⟩]
  · intro hneg
    have hcond : ¬(x < input.h / l.poolSize * l.poolSize ∧
        y < input.w / l.poolSize * l.poolSize ∧ f < input.c ∧
        input.data x y f = regionMax input l.poolSize (x / l.poolSize)
          (y / l.poolSize) f) := by
      intro hcond
      obtain ⟨h1, h2, _, h4⟩ := hcond
      refine hneg ⟨h1, h2, fun a b ha hb => ?_⟩
      rw [h4]
      exact le_regionMax input l.poolSize (x / l.poolSize)
        (y / l.poolSize) f a b hP ha hb
    rw [hdata, if_neg hcond]

def c4Input : Tensor3 ℚ := ⟨5, 5, 1, fun i j _ => (i : ℚ) * 5 + j⟩

def c4Pool : MaxPooling2D ℚ := ⟨2, ⟨0, 0, 0, fun _ _ _ => 0⟩⟩

def c4DOut : Tensor3 ℚ := ⟨2, 2, 1, fun _ _ _ => 7⟩

/-- Witness for C4: on the 5×5×1 input with entries 5i+j pooled with
P = 2, position (1,1) is the unique maximum of its window and receives
the d_out entry 7, position (0,0) is not a maximum and gets 0, and the
dropped position (4,4) gets 0. -/
theorem pool_backward_spec_witness :
    ((c4Pool.forward c4Input).2.backward c4DOut).data 1 1 0 = 7 ∧
    ((c4Pool.forward c4Input).2.backward c4DOut).data 0 0 0 = 0 ∧
    ((c4Pool.forward c4Input).2.backward c4DOut).data 4 4 0 = 0 := by
  obtain ⟨e1, e2, e3, e4⟩ := pool_backward_spec c4Pool c4Input c4DOut
    (by decide) (by decide) (by decide) (by decide)
  refine ⟨?_, ?_, ?_⟩
  · have h := (e4 1 1 0 (by decide) (by decide) (by decide)).1 (by decide)
      (by decide) ?_
    · rw [h]
      rfl
    · intro a b ha hb
      have ha2 : a < 2 := ha
      have hb2 : b < 2 := hb
      interval_cases a <;> interval_cases b <;> norm_num [c4Input, c4Pool]
  · have h := (e4 0 0 0 (by decide) (by decide) (by decide)).2 ?_
    · rw [h]
    · intro hcond
      have h6 := hcond.2.2 1 1 (by decide) (by decide)
      norm_num [c4Input] at h6
  · have h := (e4 4 4 0 (by decide) (by decide) (by decide)).2 ?_
    · rw [h]
    · intro hcond
      exact absurd hcond.1 (by decide)

/-- Helper: `Dense.forward` on an input whose flattened length matches
the weight matrix succeeds with `totals = input·weights + biases` and
caches the input shape, the flattened input and the totals. -/
theorem dense_forward_eq {K : Type} [LinearOrderedField K] (l : Dense K)
    (input : Tensor3 K)
    (hlen : input.h * input.w * input.c = l.inputLen) :
    l.forward input =
      (Except.ok (fun n => (∑ k ∈ Finset.range l.inputLen,
          input.flatten k * l.weights k n) + l.biases n),
       { l with
          lastInputShape := (input.h, input.w, input.c)
          lastInput := input.flatten
          lastTotals := fun n => (∑ k ∈ Finset.range l.inputLen,
            input.flatten k * l.weights k n) + l.biases n }) := by
  simp only [Dense.forward]
  rw [if_pos hlen]

/-- C5: after a forward pass on `input`, for every output gradient
`d_out` and learning rate, `Dense.backward` updates each weight by the
outer product of the retained flattened input with `d_out` scaled by the
learning rate, each bias by the corresponding `d_out` entry scaled by
the learning rate, and returns the input gradient `weights · d_out`
(computed with the pre-update weights) reshaped to the original
pre-flatten input shape. -/
theorem dense_backward_spec (l : Dense ℚ) (input : Tensor3 ℚ)
    (dOut : ℕ → ℚ) (lr : ℚ)
    (hlen : input.h * input.w * input.c = l.inputLen) :
    (∀ k n, k < l.inputLen → n < l.nodes →
      ((l.forward input).2.backward dOut lr).2.weights k n =
        l.weights k n - lr * (input.flatten k * dOut n)) ∧
    (∀ n, n < l.nodes →
      ((l.forward input).2.backward dOut lr).2.biases n =
        l.biases n - lr * dOut n) ∧
    ((l.forward input).2.backward dOut lr).1.h = input.h ∧
    ((l.forward input).2.backward dOut lr).1.w = input.w ∧
    ((l.forward input).2.backward dOut lr).1.c = input.c ∧
    (∀ x y z, x < input.h → y < input.w → z < input.c →
      ((l.forward input).2.backward dOut lr).1.data x y z =
        ∑ n ∈ Finset.range l.nodes,
          l.weights ((x * input.w + y) * input.c + z) n * dOut n) := by
  rw [dense_forward_eq l input hlen]
  exact ⟨fun _ _ _ _ => rfl, fun _ _ => rfl, rfl, rfl, rfl,
    fun _ _ _ _ _ _ => rfl⟩

def c5Dense : Dense ℚ :=
  ⟨4, 2, fun k n => (k : ℚ) + n, fun n => (n : ℚ), (0, 0, 0),
    fun _ => 0, fun _ => 0⟩

def c5Input : Tensor3 ℚ := ⟨2, 2, 1, fun i j _ => (i : ℚ) * 2 + j + 1⟩

def c5DOut : ℕ → ℚ := fun n => if n = 0 then 2 else 3

/-- Witness for C5: a 4→2 dense layer with weights k+n and biases n on
the flattened input (1,2,3,4) with gradient (2,3) and learning rate 1:
weight (0,0) becomes 0 − 1·(1·2) = −2, bias 1 becomes 1 − 3 = −2, and
the reshaped input gradient at (0,0,0) is 0·2 + 1·3 = 3. -/
theorem dense_backward_spec_witness :
    ((c5Dense.forward c5Input).2.backward c5DOut 1).2.weights 0 0 = -2 ∧
    ((c5Dense.forward c5Input).2.backward c5DOut 1).2.biases 1 = -2 ∧
    ((c5Dense.forward c5Input).2.backward c5DOut 1).1.h = 2 ∧
    ((c5Dense.forward c5Input).2.backward c5DOut 1).1.data 0 0 0 = 3 := by
  obtain ⟨e1, e2, e3, e4, e5, e6⟩ :=
    dense_backward_spec c5Dense c5Input c5DOut 1 (by decide)
  refine ⟨?_, ?_, by rw [e3]; decide, ?_⟩
  · rw [e1 0 0 (by decide) (by decide)]
    norm_num [c5Dense, c5Input, c5DOut, Tensor3.flatten]
  · rw [e2 1 (by decide)]
    norm_num [c5Dense, c5DOut]
  · rw [e6 0 0 0 (by decide) (by decide) (by decide)]
    norm_num [c5Dense, c5Input, c5DOut, Finset.sum_range_succ]

/-- Helper: the vector maximum commutes with adding a constant to every
entry. -/
theorem maxOver_add {K : Type} [LinearOrderedField K] (n : ℕ) (x : ℕ → K)
    (cst : K) (hn : 0 < n) :
    maxOver n (fun i => x i + cst) = maxOver n x + cst := by
  unfold maxOver
  rw [dif_pos hn, dif_pos hn]
  apply le_antisymm
  · refine Finset.sup'_le _ _ fun i hi => ?_
    exact add_le_add_right (Finset.le_sup' x hi) cst
  · rw [← le_sub_iff_add_le]
    refine Finset.sup'_le _ _ fun i hi => ?_
    rw [le_sub_iff_add_le]
    exact @Finset.le_sup' _ _ _ _ (fun j => x j + cst) i hi

/-- C7: for every length-n real input vector (n > 0), the softmax output
sums to exactly 1 and is invariant under adding the same constant to
every input entry. -/
theorem softmax_spec (n : ℕ) (x : ℕ → ℝ) (hn : 0 < n) :
    (∑ i ∈ Finset.range n, softmax Real.exp n x i = 1) ∧
    (∀ cst : ℝ, ∀ i, softmax Real.exp n (fun j => x j + cst) i =
      softmax Real.exp n x i) := by
  have hpos : 0 < ∑ j ∈ Finset.range n, Real.exp (x j - maxOver n x) :=
    Finset.sum_pos (fun j _ => Real.exp_pos _)
      (Finset.nonempty_range_iff.mpr hn.ne')
  constructor
  · unfold softmax
    rw [← Finset.sum_div]
    exact div_self hpos.ne'
  · intro cst i
    simp only [softmax, maxOver_add n x cst hn]
    congr 1
    · congr 1
      ring
    · refine Finset.sum_congr rfl fun j _ => ?_
      congr 1
      ring

/-- Witness for C7: the softmax of the vector (0, 1) sums to 1, and
shifting both entries by 5 leaves the first output unchanged. -/
theorem softmax_spec_witness :
    (∑ i ∈ Finset.range 2, softmax Real.exp 2 (fun j => (j : ℝ)) i = 1) ∧
    softmax Real.exp 2 (fun j => (j : ℝ) + 5) 0 =
      softmax Real.exp 2 (fun j => (j : ℝ)) 0 := by
  obtain ⟨e1, e2⟩ := softmax_spec 2 (fun j => (j : ℝ)) (by decide)
  exact ⟨e1, e2 5 0⟩

/-- Helper: a successful driver forward pass returns the cross-entropy
loss of the probability vector at the true label and the argmax-based
accuracy flag. -/
theorem netForward_ok_shape (net : Network ℝ) (image : Tensor3 ℝ)
    (label : ℕ) (r : (ℕ → ℝ) × ℝ × ℕ)
    (h : (netForward Real.exp Real.log net image label).1 = Except.ok r) :
    r.2.1 = cross_entropy_loss Real.log r.1 label ∧
    r.2.2 = (if argmaxFirst net.dense.nodes r.1 = label then 1 else 0) := by
  simp only [netForward] at h
  split at h
  · simp at h
  · split at h
    · simp at h
    · simp only [Except.ok.injEq] at h
      cases h
      exact ⟨rfl, rfl⟩

/-- C6: whenever the forward pass succeeds with probabilities `out`, loss
and accuracy, `train` has produced loss = −log(out label), and its result
is exactly: the pair (loss, accuracy), together with the network obtained
from the post-forward state by running Dense.backward on the initial
gradient — the vector that is zero except at the true label's index,
which holds −1 / out label — then MaxPooling2D.backward on the returned
input gradient, then Conv2D.backward on that result, in that order (the
notebook hard-codes num_classes = 2, hence the last two hypotheses). -/
theorem train_spec (net : Network ℝ) (image : Tensor3 ℝ) (label : ℕ)
    (lr : ℝ) (out : ℕ → ℝ) (loss : ℝ) (acc : ℕ)
    (hnodes : net.dense.nodes = 2) (hlab : label < 2)
    (hok : (netForward Real.exp Real.log net image label).1 =
      Except.ok (out, loss, acc)) :
    loss = - Real.log (out label) ∧
    acc = (if argmaxFirst net.dense.nodes out = label then 1 else 0) ∧
    train Real.exp Real.log net image label lr =
      (Except.ok (loss, acc),
       { conv := ((netForward Real.exp Real.log net image label).2.conv.backward
            ((netForward Real.exp Real.log net image label).2.pool.backward
              ((netForward Real.exp Real.log net image label).2.dense.backward
                (fun n => if n = label then -1 / out label else 0) lr).1) lr).2,
         pool := (netForward Real.exp Real.log net image label).2.pool,
         dense := ((netForward Real.exp Real.log net image label).2.dense.backward
            (fun n => if n = label then -1 / out label else 0) lr).2 }) := by
  obtain ⟨hl, ha⟩ := netForward_ok_shape net image label (out, loss, acc) hok
  refine ⟨hl, ha, ?_⟩
  simp only [train, hok]

def c6Net : Network ℝ :=
  ⟨⟨1, 1, 1, fun _ _ _ _ => 0, ⟨0, 0, 0, fun _ _ _ => 0⟩⟩,
   ⟨1, ⟨0, 0, 0, fun _ _ _ => 0⟩⟩,
   ⟨1, 2, fun _ _ => 0, fun _ => 0, (0, 0, 0), fun _ => 0, fun _ => 0⟩⟩

def c6Img : Tensor3 ℝ := ⟨1, 1, 1, fun _ _ _ => 0⟩

/-- Witness for C6: on a 1×1×1 network the forward pass succeeds and the
returned loss is −log of the predicted probability of the true class. -/
theorem train_spec_witness :
    cross_entropy_loss Real.log (netProbs Real.exp Real.log c6Net c6Img 0) 0 =
      - Real.log (netProbs Real.exp Real.log c6Net c6Img 0 0) := by
  exact (train_spec c6Net c6Img 0 1
    (netProbs Real.exp Real.log c6Net c6Img 0)
    (cross_entropy_loss Real.log (netProbs Real.exp Real.log c6Net c6Img 0) 0)
    (if argmaxFirst c6Net.dense.nodes
        (netProbs Real.exp Real.log c6Net c6Img 0) = 0 then 1 else 0)
    rfl (by decide) rfl).1

/-- Helper: `Dense.forward` never changes the weights or the biases. -/
theorem dense_forward_snd_params {K : Type} [LinearOrderedField K]
    (l : Dense K) (input : Tensor3 K) :
    (l.forward input).2.weights = l.weights ∧
    (l.forward input).2.biases = l.biases := by
  simp only [Dense.forward]
  split
  · exact ⟨rfl, rfl⟩
  · exact ⟨rfl, rfl⟩

/-- C10: no forward call mutates learned parameters: `Conv2D.forward`
keeps the filter bank, `MaxPooling2D.forward` keeps its configuration,
`Dense.forward` keeps the weights and the biases, and the driver forward
pass keeps all of them (only the backward calls update parameters). -/
theorem forward_preserves_params :
    (∀ (l : Conv2D ℝ) (input : Tensor3 ℝ),
      (l.forward input).2.filters = l.filters) ∧
    (∀ (l : MaxPooling2D ℝ) (input : Tensor3 ℝ),
      (l.forward input).2.poolSize = l.poolSize) ∧
    (∀ (l : Dense ℝ) (input : Tensor3 ℝ),
      (l.forward input).2.weights = l.weights ∧
      (l.forward input).2.biases = l.biases) ∧
    (∀ (net : Network ℝ) (image : Tensor3 ℝ) (label : ℕ),
      (netForward Real.exp Real.log net image label).2.conv.filters =
        net.conv.filters ∧
      (netForward Real.exp Real.log net image label).2.pool.poolSize =
        net.pool.poolSize ∧
      (netForward Real.exp Real.log net image label).2.dense.weights =
        net.dense.weights ∧
      (netForward Real.exp Real.log net image label).2.dense.biases =
        net.dense.biases) := by
  refine ⟨fun l input => by rw [conv_forward_snd], fun l input => rfl,
    fun l input => dense_forward_snd_params l input,
    fun net image label => ?_⟩
  simp only [netForward]
  split
  · exact ⟨by rw [conv_forward_snd], rfl, rfl, rfl⟩
  · split
    · exact ⟨by rw [conv_forward_snd], rfl,
        (dense_forward_snd_params _ _).1, (dense_forward_snd_params _ _).2⟩
    · exact ⟨by rw [conv_forward_snd], rfl,
        (dense_forward_snd_params _ _).1, (dense_forward_snd_params _ _).2⟩

/-- Boolean test for the error constructor of an `Except` result. -/
def isErr {K : Type} {A : Type} (e : Except K A) : Bool :=
  match e with
  | Except.error _ => true
  | Except.ok _ => false

/-- C8 (amended): the layers perform no validation of their own; the
only failures are the numpy ones.  `Conv2D.forward` errs exactly when a
computed output dimension is negative (F > H+1 or F > W+1) or when the
output region is nonempty and the image channel count is
broadcast-incompatible with the filter channels (C ≠ filter channels,
C ≠ 1 and filter channels ≠ 1); in particular F = H+1 silently yields an
empty tensor and a single-channel image silently broadcasts.
`Dense.forward` errs exactly when the flattened input length differs
from the configured input length. -/
theorem layer_error_characterization :
    (∀ (l : Conv2D ℚ) (input : Tensor3 ℚ),
      isErr (l.forward input).1 = true ↔
        (input.h + 1 < l.filterSize ∨ input.w + 1 < l.filterSize ∨
          (l.filterSize ≤ input.h ∧ l.filterSize ≤ input.w ∧
            input.c ≠ l.channels ∧ input.c ≠ 1 ∧ l.channels ≠ 1))) ∧
    (∀ (l : Dense ℚ) (input : Tensor3 ℚ),
      isErr (l.forward input).1 = true ↔
        input.h * input.w * input.c ≠ l.inputLen) := by
  constructor
  · intro l input
    simp only [Conv2D.forward]
    split
    · next hneg =>
      refine iff_of_true rfl ?_
      omega
    · next hneg =>
      split
      · next hcond =>
        obtain ⟨h1, h2, h3⟩ := hcond
        simp only [broadcastOK, Bool.or_eq_false_iff,
          beq_eq_false_iff_ne] at h3
        refine iff_of_true rfl ?_
        right; right
        exact ⟨by omega, by omega, h3.1.1, h3.1.2, h3.2⟩
      · next hcond =>
        refine iff_of_false (by simp [isErr]) ?_
        intro hbad
        rcases hbad with hb | hb | ⟨hFh, hFw, hne, hne1, hne2⟩
        · omega
        · omega
        · refine hcond ⟨by omega, by omega, ?_⟩
          simp only [broadcastOK, Bool.or_eq_false_iff,
            beq_eq_false_iff_ne]
          exact ⟨⟨hne, hne1⟩, hne2⟩
  · intro l input
    simp only [Dense.forward]
    split
    · next hlen =>
      exact iff_of_false (by simp [isErr]) (fun hne => hne hlen)
    · next hlen =>
      exact iff_of_true rfl hlen

def c8Layer : Conv2D ℚ :=
  ⟨8, 3, 3, fun _ _ _ _ => 0, ⟨0, 0, 0, fun _ _ _ => 0⟩⟩

def c8Img : Tensor3 ℚ := ⟨2, 2, 3, fun _ _ _ => 0⟩

/-- Counterexample for C8: a filter size (3) larger than both image
dimensions (2×2) is an invalid configuration, yet neither the
constructor nor the first forward call raises any error: forward
silently returns an empty (0×0) output tensor. -/
theorem conv_invalid_config_silent :
    c8Img.h < c8Layer.filterSize ∧ c8Img.w < c8Layer.filterSize ∧
    isErr (c8Layer.forward c8Img).1 = false ∧
    (okTensor (c8Layer.forward c8Img).1).h = 0 ∧
    (okTensor (c8Layer.forward c8Img).1).w = 0 := by
  exact ⟨by decide, by decide, by decide, by decide, by decide⟩

/-- C9 (amended): on an oversized filter (F > H or F > W),
`Conv2D.forward` returns a zero-sized output without error only when
both computed output dimensions are nonnegative (F ≤ H+1 and F ≤ W+1);
when F > H+1 or F > W+1 it raises numpy's negative-dimensions
ValueError instead of producing a tensor. -/
theorem conv_oversized_filter_behavior (l : Conv2D ℚ) (input : Tensor3 ℚ)
    (hbig : input.h < l.filterSize ∨ input.w < l.filterSize) :
    ((l.filterSize ≤ input.h + 1 ∧ l.filterSize ≤ input.w + 1) →
      isErr (l.forward input).1 = false ∧
      ((okTensor (l.forward input).1).h = 0 ∨
        (okTensor (l.forward input).1).w = 0)) ∧
    ((input.h + 1 < l.filterSize ∨ input.w + 1 < l.filterSize) →
      isErr (l.forward input).1 = true) := by
  constructor
  · intro hle
    have hneg : ¬((input.h : ℤ) - (l.filterSize : ℤ) + 1 < 0 ∨
        (input.w : ℤ) - (l.filterSize : ℤ) + 1 < 0) := by
      push_neg
      constructor <;> omega
    have hc2 : ¬(0 < input.h + 1 - l.filterSize ∧
        0 < input.w + 1 - l.filterSize ∧
        broadcastOK input.c l.channels = false) := by
      rintro ⟨a1, a2, _⟩
      omega
    simp only [Conv2D.forward]
    rw [if_neg hneg, if_neg hc2]
    refine ⟨rfl, ?_⟩
    show input.h + 1 - l.filterSize = 0 ∨ input.w + 1 - l.filterSize = 0
    omega
  · intro hgt
    simp only [Conv2D.forward]
    rw [if_pos (by omega :
      (input.h : ℤ) - (l.filterSize : ℤ) + 1 < 0 ∨
      (input.w : ℤ) - (l.filterSize : ℤ) + 1 < 0)]
    rfl

def c9Layer : Conv2D ℚ :=
  ⟨8, 3, 3, fun _ _ _ _ => 0, ⟨0, 0, 0, fun _ _ _ => 0⟩⟩

def c9Img : Tensor3 ℚ := ⟨1, 5, 3, fun _ _ _ => 0⟩

/-- Counterexample for C9: a 1×5×3 image with filter size 3 satisfies
F > H, yet forward does not return a zero-sized tensor — it raises
numpy's negative-dimensions ValueError. -/
theorem conv_oversized_filter_crashes :
    c9Img.h < c9Layer.filterSize ∧
    isErr (c9Layer.forward c9Img).1 = true ∧
    (c9Layer.forward c9Img).1 =
      Except.error "negative dimensions are not allowed" := by
  exact ⟨by decide, by decide, rfl⟩

def c9bLayer : Conv2D ℚ :=
  ⟨8, 3, 3, fun _ _ _ _ => 0, ⟨0, 0, 0, fun _ _ _ => 0⟩⟩

def c9bImg : Tensor3 ℚ := ⟨2, 5, 3, fun _ _ _ => 0⟩

/-- Witness for the amended C9: a 2×5×3 image with filter size 3 has
F = H+1, so forward succeeds silently with an empty output. -/
theorem conv_oversized_filter_behavior_witness :
    c9bImg.h < c9bLayer.filterSize ∧
    isErr (c9bLayer.forward c9bImg).1 = false ∧
    ((okTensor (c9bLayer.forward c9bImg).1).h = 0 ∨
      (okTensor (c9bLayer.forward c9bImg).1).w = 0) := by
  have h := conv_oversized_filter_behavior c9bLayer c9bImg
    (Or.inl (by decide))
  exact ⟨by decide, (h.1 ⟨by decide, by decide⟩).1,
    (h.1 ⟨by decide, by decide⟩).2⟩

end CNN
